import Mathlib

/-!
Verification development for the dish-decoder OCR core.

The TypeScript sources are shallowly embedded here:
* `preprocessImage`, `SCALE_FACTOR` — from `useTesseract` (pixel pipeline:
  upscale, grayscale, contrast stretch, polarity invert, quadratic tone
  compression).  JS numbers are modelled by exact rationals `ℚ`.
* `recognizeOCR` — the task orchestrator of `useTesseract`, modelled as a
  state-passing function over an abstract engine environment.  The
  `failed`/`trace` fields of the outcome are ghost instrumentation recording
  which external calls happened; the value the caller receives is `result`.
* `takePhotoCrop` — the cover-style crop computation inside
  `useCamera.takePhoto`, plus the parallel computation in
  `CameraView.handleScan`.
-/

namespace DishDecoder

/-- One RGBA pixel; channel values are exact rationals modelling JS numbers. -/
structure Pixel where
  r : ℚ
  g : ℚ
  b : ℚ
  a : ℚ
deriving DecidableEq, Repr

/-- Raster image: dimensions plus a row-major pixel list (the `ImageData`
buffer grouped 4 bytes per pixel). -/
structure RasterImage where
  width : Nat
  height : Nat
  data : List Pixel
deriving DecidableEq, Repr

/-- Rec. 709 weighted gray value, as in
`const gray = 0.2126 * r + 0.7152 * g + 0.0722 * b;`. -/
def grayOf (p : Pixel) : ℚ :=
  2126 / 10000 * p.r + 7152 / 10000 * p.g + 722 / 10000 * p.b

/-- `const SCALE_FACTOR = 2` from `useTesseract`. -/
def SCALE_FACTOR : Nat := 2

/-- Pixel lookup in a row-major buffer; out-of-range reads yield a zero pixel. -/
def getPixel (img : RasterImage) (x y : Nat) : Pixel :=
  img.data.getD (y * img.width + x) ⟨0, 0, 0, 0⟩

/-- Nearest-neighbor upscale by `SCALE_FACTOR`, modelling
`canvas.width = imgBitmap.width * SCALE_FACTOR; ctx.imageSmoothingEnabled = false;
ctx.drawImage(imgBitmap, 0, 0, canvas.width, canvas.height)`. -/
def upscale (img : RasterImage) : RasterImage :=
  { width := img.width * SCALE_FACTOR
    height := img.height * SCALE_FACTOR
    data := (List.range (img.height * SCALE_FACTOR)).flatMap fun y =>
      (List.range (img.width * SCALE_FACTOR)).map fun x =>
        getPixel img (x / SCALE_FACTOR) (y / SCALE_FACTOR) }

/-- Pass 1 statistic: `minGray`, fold of `if (gray < minGray) minGray = gray`
starting from 255. -/
def minGray (img : RasterImage) : ℚ :=
  img.data.foldl (fun m p => min m (grayOf p)) 255

/-- Pass 1 statistic: `maxGray`, starting from 0. -/
def maxGray (img : RasterImage) : ℚ :=
  img.data.foldl (fun m p => max m (grayOf p)) 0

/-- Pass 1 statistic: `totalBrightness`. -/
def sumGray (img : RasterImage) : ℚ :=
  img.data.foldl (fun s p => s + grayOf p) 0

/-- `const avgGray = totalBrightness / pixelCount`. -/
def avgGray (img : RasterImage) : ℚ :=
  sumGray img / (img.data.length : ℚ)

/-- `const isDarkBackground = avgGray < 100`. -/
def isDarkBackground (img : RasterImage) : Bool :=
  decide (avgGray img < 100)

/-- `const scale = range === 0 ? 1 : 255 / range` with `range = maxGray - minGray`. -/
def scaleOf (img : RasterImage) : ℚ :=
  if maxGray img - minGray img = 0 then 1 else 255 / (maxGray img - minGray img)

/-- Pass 2 body of `preprocessImage`: contrast stretch with boundary checks,
smart invert on dark backgrounds, quadratic tone compression, written
identically to R, G, B with alpha untouched. -/
def transformPixel (minG scaleV : ℚ) (dark : Bool) (p : Pixel) : Pixel :=
  let gray := grayOf p
  let n0 := (gray - minG) * scaleV
  let n1 := if n0 < 0 then 0 else n0
  let n2 := if n1 > 255 then 255 else n1
  let f0 := if dark then 255 - n2 else n2
  let f1 := f0 * f0 / 255
  ⟨f1, f1, f1, p.a⟩

/-- `preprocessImage` from `useTesseract`: upscale, then the two statistic /
transform passes over the upscaled buffer. -/
def preprocessImage (img : RasterImage) : RasterImage :=
  let up := upscale img
  { width := up.width
    height := up.height
    data := up.data.map (transformPixel (minGray up) (scaleOf up) (isDarkBackground up)) }

/-- C6: the preprocessed image has exactly the input dimensions multiplied by
the upscale factor on both axes, and that factor is 2. -/
theorem preprocess_dims (img : RasterImage) :
    (preprocessImage img).width = img.width * SCALE_FACTOR ∧
    (preprocessImage img).height = img.height * SCALE_FACTOR ∧
    SCALE_FACTOR = 2 :=
  ⟨rfl, rfl, rfl⟩

/-- The two sequential boundary checks of Pass 2 are exactly a clamp to
`[0, 255]`. -/
theorem boundary_checks_clamp (x : ℚ) :
    (if (if x < 0 then (0 : ℚ) else x) > 255 then (255 : ℚ)
     else if x < 0 then 0 else x) = min 255 (max 0 x) := by
  rcases lt_or_le x 0 with h | h
  · simp only [if_pos h]
    rw [if_neg (by norm_num : ¬ (0 : ℚ) > 255)]
    rw [max_eq_left h.le, min_eq_right (by norm_num : (0 : ℚ) ≤ 255)]
  · simp only [if_neg (not_lt.mpr h)]
    rw [max_eq_right h]
    rcases le_or_lt x 255 with h2 | h2
    · rw [if_neg (not_lt.mpr h2), min_eq_right h2]
    · rw [if_pos h2, min_eq_left h2.le]

/-- The Pass 2 pixel transform, written with the clamp/invert vocabulary of
the specification. -/
theorem transformPixel_eq (minG scaleV : ℚ) (dark : Bool) (p : Pixel) :
    transformPixel minG scaleV dark p =
      (let stretched := min 255 (max 0 ((grayOf p - minG) * scaleV))
       let normalized := if dark then 255 - stretched else stretched
       ⟨normalized * normalized / 255, normalized * normalized / 255,
        normalized * normalized / 255, p.a⟩ : Pixel) := by
  unfold transformPixel
  simp only [boundary_checks_clamp]

/-- C7: every output pixel carries one common value `final = normalized² / 255`
in its R, G and B channels and keeps the input alpha, where `normalized` is
the clamped contrast-stretched luma, inverted exactly when the average luma of
the working buffer is below 100. -/
theorem preprocess_pixels (img : RasterImage) :
    (preprocessImage img).data = (upscale img).data.map fun p =>
      let stretched := min 255 (max 0
        ((grayOf p - minGray (upscale img)) * scaleOf (upscale img)))
      let normalized := if avgGray (upscale img) < 100 then 255 - stretched else stretched
      (⟨normalized * normalized / 255, normalized * normalized / 255,
        normalized * normalized / 255, p.a⟩ : Pixel) := by
  unfold preprocessImage
  apply List.map_congr_left
  intro p _
  rw [transformPixel_eq]
  by_cases h : avgGray (upscale img) < 100 <;> simp [isDarkBackground, h]

/-- Helper: folding `min` over a list whose images under `g` are all `c`. -/
theorem foldl_min_const {α : Type} (g : α → ℚ) (c : ℚ) (l : List α) :
    (∀ x ∈ l, g x = c) → l ≠ [] → ∀ a : ℚ,
      l.foldl (fun m p => min m (g p)) a = min a c := by
  induction l with
  | nil => intro _ h; exact absurd rfl h
  | cons x t ih =>
    intro hall _ a
    have hx : g x = c := hall x (List.mem_cons_self x t)
    by_cases ht : t = []
    · subst ht; simp [hx]
    · have hrec := ih (fun z hz => hall z (List.mem_cons_of_mem x hz)) ht (min a c)
      simp only [List.foldl_cons, hx]
      rw [hrec, min_assoc, min_self]

/-- Helper: folding `max` over a list whose images under `g` are all `c`. -/
theorem foldl_max_const {α : Type} (g : α → ℚ) (c : ℚ) (l : List α) :
    (∀ x ∈ l, g x = c) → l ≠ [] → ∀ a : ℚ,
      l.foldl (fun m p => max m (g p)) a = max a c := by
  induction l with
  | nil => intro _ h; exact absurd rfl h
  | cons x t ih =>
    intro hall _ a
    have hx : g x = c := hall x (List.mem_cons_self x t)
    by_cases ht : t = []
    · subst ht; simp [hx]
    · have hrec := ih (fun z hz => hall z (List.mem_cons_of_mem x hz)) ht (max a c)
      simp only [List.foldl_cons, hx]
      rw [hrec, max_assoc, max_self]

/-- Helper: for a buffer of the advertised length, every pixel of the upscaled
image is a pixel of the original image. -/
theorem mem_upscale_of (img : RasterImage)
    (hlen : img.data.length = img.width * img.height) :
    ∀ q ∈ (upscale img).data, q ∈ img.data := by
  intro q hq
  unfold upscale at hq
  simp only [List.mem_flatMap, List.mem_map, List.mem_range] at hq
  obtain ⟨y, hy, x, hx, rfl⟩ := hq
  have hx2 : x / SCALE_FACTOR < img.width := by
    apply Nat.div_lt_of_lt_mul
    rw [Nat.mul_comm]
    exact hx
  have hy2 : y / SCALE_FACTOR < img.height := by
    apply Nat.div_lt_of_lt_mul
    rw [Nat.mul_comm]
    exact hy
  have hidx : (y / SCALE_FACTOR) * img.width + x / SCALE_FACTOR < img.data.length := by
    rw [hlen]
    calc (y / SCALE_FACTOR) * img.width + x / SCALE_FACTOR
        < (y / SCALE_FACTOR) * img.width + img.width := by omega
      _ = (y / SCALE_FACTOR + 1) * img.width := by ring
      _ ≤ img.height * img.width := Nat.mul_le_mul_right _ hy2
      _ = img.width * img.height := Nat.mul_comm _ _
  unfold getPixel
  rw [List.getD_eq_getElem _ _ hidx]
  exact List.getElem_mem hidx

/-- Helper: a positive-dimension image has a nonempty upscaled buffer. -/
theorem upscale_data_ne_nil (img : RasterImage)
    (hw : 0 < img.width) (hh : 0 < img.height) :
    (upscale img).data ≠ [] := by
  have hmem : getPixel img 0 0 ∈ (upscale img).data := by
    unfold upscale
    simp only [List.mem_flatMap, List.mem_map, List.mem_range]
    refine ⟨0, ?_, 0, ?_, rfl⟩
    · have : (0 : Nat) < SCALE_FACTOR := by decide
      exact Nat.mul_pos hh this
    · have : (0 : Nat) < SCALE_FACTOR := by decide
      exact Nat.mul_pos hw this
  exact List.ne_nil_of_mem hmem

/-- C8: for an input whose pixels all share one luma value in `[0, 255]` (so
the observed minimum and maximum luma coincide), the stretch scale defaults to
1 — no division by zero happens — and the output is uniform: one value fills
R, G and B of every pixel. -/
theorem preprocess_uniform (img : RasterImage) (c : ℚ)
    (hlen : img.data.length = img.width * img.height)
    (hw : 0 < img.width) (hh : 0 < img.height)
    (hc : ∀ p ∈ img.data, grayOf p = c)
    (h0 : 0 ≤ c) (h255 : c ≤ 255) :
    scaleOf (upscale img) = 1 ∧
    ∃ v : ℚ, ∀ p ∈ (preprocessImage img).data, p.r = v ∧ p.g = v ∧ p.b = v := by
  have hcall : ∀ q ∈ (upscale img).data, grayOf q = c :=
    fun q hq => hc q (mem_upscale_of img hlen q hq)
  have hne := upscale_data_ne_nil img hw hh
  have hmin : minGray (upscale img) = c := by
    unfold minGray
    rw [foldl_min_const grayOf c _ hcall hne 255, min_eq_right h255]
  have hmax : maxGray (upscale img) = c := by
    unfold maxGray
    rw [foldl_max_const grayOf c _ hcall hne 0, max_eq_right h0]
  have hscale : scaleOf (upscale img) = 1 := by
    unfold scaleOf
    rw [hmin, hmax, if_pos (by ring)]
  refine ⟨hscale, if isDarkBackground (upscale img) then 255 else 0, ?_⟩
  intro p hp
  unfold preprocessImage at hp
  simp only [List.mem_map] at hp
  obtain ⟨q, hq, rfl⟩ := hp
  have hgq : grayOf q = c := hcall q hq
  unfold transformPixel
  simp only [hgq, hmin, hscale, sub_self, zero_mul, lt_irrefl, if_neg (by norm_num : ¬ (0:ℚ) > 255)]
  cases hdark : isDarkBackground (upscale img) <;> norm_num

/-- Witness for `preprocess_uniform` on a concrete 1×1 mid-gray image whose
single pixel has luma exactly 100. -/
theorem preprocess_uniform_witness :
    ((⟨1, 1, [⟨100, 100, 100, 255⟩]⟩ : RasterImage).data.length = 1 * 1) ∧
    (0 : Nat) < 1 ∧
    (∀ p ∈ (⟨1, 1, [⟨100, 100, 100, 255⟩]⟩ : RasterImage).data, grayOf p = 100) ∧
    ((0 : ℚ) ≤ 100 ∧ (100 : ℚ) ≤ 255) ∧
    (scaleOf (upscale ⟨1, 1, [⟨100, 100, 100, 255⟩]⟩) = 1 ∧
      ∃ v : ℚ, ∀ p ∈ (preprocessImage ⟨1, 1, [⟨100, 100, 100, 255⟩]⟩).data,
        p.r = v ∧ p.g = v ∧ p.b = v) :=
  ⟨by decide, by decide, by norm_num [grayOf], by norm_num,
    preprocess_uniform ⟨1, 1, [⟨100, 100, 100, 255⟩]⟩ 100 (by decide) (by decide)
      (by decide) (by norm_num [grayOf]) (by norm_num) (by norm_num)⟩

/-- A pair of dimensions (display viewport or native capture frame), as exact
rationals. -/
structure Size where
  w : ℚ
  h : ℚ
deriving DecidableEq, Repr

/-- A rectangle given as left, top, width, height, as in `Tesseract.Rectangle`
and the source-crop rectangle of `takePhoto`. -/
structure Rect where
  left : ℚ
  top : ℚ
  width : ℚ
  height : ℚ
deriving DecidableEq, Repr

/-- The cover-style crop computed inside `useCamera.takePhoto`:
`sx, sy, sWidth, sHeight` start as the full capture frame, then one axis is
cropped and centered depending on which aspect ratio is larger. -/
def takePhotoCrop (displaySize captureSize : Size) : Rect :=
  let displayAspect := displaySize.w / displaySize.h
  let videoAspect := captureSize.w / captureSize.h
  if videoAspect > displayAspect then
    let sWidth := captureSize.h * displayAspect
    ⟨(captureSize.w - sWidth) / 2, 0, sWidth, captureSize.h⟩
  else
    let sHeight := captureSize.w / displayAspect
    ⟨0, (captureSize.h - sHeight) / 2, captureSize.w, sHeight⟩

/-- The parallel blob-dimension computation in `CameraView.handleScan`
(`blobWidth`/`blobHeight`). -/
def handleScanBlobDims (displaySize captureSize : Size) : Size :=
  let displayAspect := displaySize.w / displaySize.h
  let videoAspect := captureSize.w / captureSize.h
  if videoAspect > displayAspect then
    ⟨captureSize.h * displayAspect, captureSize.h⟩
  else
    ⟨captureSize.w, captureSize.w / displayAspect⟩

/-- C5: when the capture aspect exceeds the display aspect the visible
sub-rectangle is `captureSize.h * displayAspect` wide, full height,
horizontally centered (left crop equals right crop); otherwise it is
`captureSize.w / displayAspect` tall, full width, vertically centered — and
`handleScan` computes exactly the same visible dimensions. -/
theorem takePhoto_crop_spec (d c : Size) :
    (c.w / c.h > d.w / d.h →
      (takePhotoCrop d c).width = c.h * (d.w / d.h) ∧
      (takePhotoCrop d c).height = c.h ∧
      (takePhotoCrop d c).top = 0 ∧
      (takePhotoCrop d c).left =
        c.w - ((takePhotoCrop d c).left + (takePhotoCrop d c).width) ∧
      handleScanBlobDims d c = ⟨(takePhotoCrop d c).width, (takePhotoCrop d c).height⟩) ∧
    (¬ c.w / c.h > d.w / d.h →
      (takePhotoCrop d c).height = c.w / (d.w / d.h) ∧
      (takePhotoCrop d c).width = c.w ∧
      (takePhotoCrop d c).left = 0 ∧
      (takePhotoCrop d c).top =
        c.h - ((takePhotoCrop d c).top + (takePhotoCrop d c).height) ∧
      handleScanBlobDims d c = ⟨(takePhotoCrop d c).width, (takePhotoCrop d c).height⟩) := by
  constructor
  · intro hgt
    unfold takePhotoCrop handleScanBlobDims
    rw [if_pos hgt, if_pos hgt]
    refine ⟨rfl, rfl, rfl, by ring, rfl⟩
  · intro hle
    unfold takePhotoCrop handleScanBlobDims
    rw [if_neg hle, if_neg hle]
    refine ⟨rfl, rfl, rfl, by ring, rfl⟩

/-- Witness for `takePhoto_crop_spec`, exercising both crop branches at
concrete sizes: display 1×1 against captures 2×1 (wider) and 1×2 (taller). -/
theorem takePhoto_crop_spec_witness :
    ((2 : ℚ) / 1 > 1 / 1 ∧
      (takePhotoCrop ⟨1, 1⟩ ⟨2, 1⟩).width = 1 * ((1 : ℚ) / 1) ∧
      (takePhotoCrop ⟨1, 1⟩ ⟨2, 1⟩).height = 1 ∧
      (takePhotoCrop ⟨1, 1⟩ ⟨2, 1⟩).top = 0 ∧
      (takePhotoCrop ⟨1, 1⟩ ⟨2, 1⟩).left =
        2 - ((takePhotoCrop ⟨1, 1⟩ ⟨2, 1⟩).left + (takePhotoCrop ⟨1, 1⟩ ⟨2, 1⟩).width) ∧
      handleScanBlobDims ⟨1, 1⟩ ⟨2, 1⟩ =
        ⟨(takePhotoCrop ⟨1, 1⟩ ⟨2, 1⟩).width, (takePhotoCrop ⟨1, 1⟩ ⟨2, 1⟩).height⟩) ∧
    (¬ (1 : ℚ) / 2 > 1 / 1 ∧
      (takePhotoCrop ⟨1, 1⟩ ⟨1, 2⟩).height = 1 / ((1 : ℚ) / 1) ∧
      (takePhotoCrop ⟨1, 1⟩ ⟨1, 2⟩).width = 1 ∧
      (takePhotoCrop ⟨1, 1⟩ ⟨1, 2⟩).left = 0 ∧
      (takePhotoCrop ⟨1, 1⟩ ⟨1, 2⟩).top =
        2 - ((takePhotoCrop ⟨1, 1⟩ ⟨1, 2⟩).top + (takePhotoCrop ⟨1, 1⟩ ⟨1, 2⟩).height) ∧
      handleScanBlobDims ⟨1, 1⟩ ⟨1, 2⟩ =
        ⟨(takePhotoCrop ⟨1, 1⟩ ⟨1, 2⟩).width, (takePhotoCrop ⟨1, 1⟩ ⟨1, 2⟩).height⟩) :=
  ⟨⟨by norm_num, (takePhoto_crop_spec ⟨1, 1⟩ ⟨2, 1⟩).1 (by norm_num)⟩,
   ⟨by norm_num, (takePhoto_crop_spec ⟨1, 1⟩ ⟨1, 2⟩).2 (by norm_num)⟩⟩

/-- A value stored in the tesseract worker parameter object (numbers or
strings in the source, e.g. a PSM number or a character whitelist). -/
inductive ParamVal where
  | num (n : Nat)
  | str (s : String)
deriving DecidableEq, Repr

/-- Association-list model of a JS object with string keys: `mapSet` is the
assignment `obj[k] = v` (replace the key if present, else append). -/
def mapSet (m : List (String × ParamVal)) (k : String) (v : ParamVal) :
    List (String × ParamVal) :=
  (m.filter fun kv => kv.1 ≠ k) ++ [(k, v)]

/-- `worker.setParameters(ps)` applied to the current parameter object:
every key of `ps` overwrites the stored value, other keys are retained. -/
def applyParams (old ps : List (String × ParamVal)) : List (String × ParamVal) :=
  ps.foldl (fun m kv => mapSet m kv.1 kv.2) old

/-- JS truthiness of the optional numeric `psm` field (`if (psm)`). -/
def psmTruthy : Option Nat → Bool
  | none => false
  | some n => n != 0

/-- One element of the `options` argument of `recognizeOCR`
(`{ langs, rectangle, parameters, psm }`). -/
structure OCRTaskOptions where
  langs : Option (List String) := none
  rectangle : Option Rect := none
  parameters : List (String × ParamVal) := []
  psm : Option Nat := none
deriving DecidableEq, Repr

/-- `const finalParams = { ...parameters }; if (psm) finalParams.tessedit_pageseg_mode = psm`. -/
def taskFinalParams (t : OCRTaskOptions) : List (String × ParamVal) :=
  match t.psm with
  | some n =>
      if n != 0 then mapSet t.parameters "tessedit_pageseg_mode" (ParamVal.num n)
      else t.parameters
  | none => t.parameters

/-- The whitespace class matched by the regex `/[\n\r\s]/` and by
`String.prototype.trim` (ASCII part). -/
def isJsWhitespace (c : Char) : Bool :=
  c = ' ' || c = '\t' || c = '\n' || c = '\r' || c = '\x0b' || c = '\x0c'

/-- `text.replace(/[\n\r\s]/g, "")`: drop every whitespace character. -/
def stripAllWs (s : String) : String :=
  ⟨s.toList.filter fun c => !isJsWhitespace c⟩

/-- `text.trim()`: drop leading and trailing whitespace only. -/
def jsTrim (s : String) : String :=
  ⟨((s.toList.dropWhile isJsWhitespace).reverse.dropWhile isJsWhitespace).reverse⟩

/-- Post-processing of a raw engine text, from
`if (psm) { text = text.replace(...) } else { text = text.trim() }`. -/
def postProcess (t : OCRTaskOptions) (raw : String) : String :=
  if psmTruthy t.psm then stripAllWs raw else jsTrim raw

/-- Scaling of a task rectangle into WorkingImage coordinates:
`{ left: rectangle.left * SCALE_FACTOR, ... }`. -/
def scaleRect (r : Rect) : Rect :=
  ⟨r.left * (SCALE_FACTOR : ℚ), r.top * (SCALE_FACTOR : ℚ),
   r.width * (SCALE_FACTOR : ℚ), r.height * (SCALE_FACTOR : ℚ)⟩

/-- The closure-captured tesseract worker: the languages fixed at creation
and the sticky parameter object. -/
structure Worker where
  langs : List String
  params : List (String × ParamVal)
deriving DecidableEq, Repr

/-- Ghost trace of the external calls `recognizeOCR` makes, in order: worker
creation, preprocessing, `setParameters`, and `recognize` (recording the
rectangle passed and the parameters in effect at the call). -/
inductive Event where
  | create (langs : List String)
  | prep
  | setParams (ps : List (String × ParamVal))
  | recognize (rect : Option Rect) (params : List (String × ParamVal))
deriving DecidableEq, Repr

/-- Abstract behaviour of the external world during one `recognizeOCR` call:
whether `createWorker` and `preprocessImage` succeed, and the raw text (or
exception, `none`) of the k-th `worker.recognize` call. -/
structure OCREnv where
  createWorkerOk : Bool
  prepOk : Bool
  engine : Nat → Option String

/-- Opaque captured image payload; only its decoded dimensions matter here. -/
structure Blob where
  w : Nat
  h : Nat
deriving DecidableEq, Repr

/-- The `options` argument: a single task object or an array of tasks. -/
inductive OCROptions where
  | single (t : OCRTaskOptions)
  | batch (ts : List OCRTaskOptions)
deriving DecidableEq, Repr

/-- `const tasks = isBatch ? options : [options]`. -/
def tasksOf : OCROptions → List OCRTaskOptions
  | .single t => [t]
  | .batch ts => ts

/-- The bare value returned on the early-exit and catch paths:
`Array.isArray(options) ? [] : ""`. -/
def emptyShape : OCROptions → String ⊕ List String
  | .single _ => Sum.inl ""
  | .batch _ => Sum.inr []

/-- The default initialization languages `["eng", "chi_sim", "chi_tra"]`. -/
def defaultLangs : List String := ["eng", "chi_sim", "chi_tra"]

/-- Initial language selection: a single task's `langs` if given, else the
first task's `langs` in a nonempty batch, else the default. -/
def initLangsOf : OCROptions → List String
  | .single t => t.langs.getD defaultLangs
  | .batch [] => defaultLangs
  | .batch (t :: _) => t.langs.getD defaultLangs

/-- The sequential task loop of `recognizeOCR`: for each task apply the
non-empty parameter overrides, scale the rectangle, call the engine (which
may throw, `none`), post-process and accumulate.  Returns the outcome, the
final worker, and the event trace. -/
def runTasks (env : OCREnv) : Nat → Worker → List OCRTaskOptions →
    Except Unit (List String) × Worker × List Event
  | _, w, [] => (Except.ok [], w, [])
  | k, w, t :: rest =>
    let fp := taskFinalParams t
    let w1 : Worker := if fp = [] then w else { w with params := applyParams w.params fp }
    let evs0 : List Event := if fp = [] then [] else [Event.setParams fp]
    let rect := t.rectangle.map scaleRect
    match env.engine k with
    | none => (Except.error (), w1, evs0 ++ [Event.recognize rect w1.params])
    | some raw =>
      let text := postProcess t raw
      match runTasks env (k + 1) w1 rest with
      | (Except.ok l, w2, evs) =>
          (Except.ok (text :: l), w2, evs0 ++ Event.recognize rect w1.params :: evs)
      | (Except.error e, w2, evs) =>
          (Except.error e, w2, evs0 ++ Event.recognize rect w1.params :: evs)

/-- Outcome of one `recognizeOCR` call.  `result` is the value the caller
receives; `worker` the closure variable afterwards; `loadingSet` whether
`loading.value = true` ever executed; `failed` whether the catch branch was
taken (ghost — the caller cannot observe it); `trace` the ghost call trace. -/
structure OCROutcome where
  result : String ⊕ List String
  worker : Option Worker
  loadingSet : Bool
  failed : Bool
  trace : List Event
deriving DecidableEq, Repr

/-- `const finalResult = isBatch ? results : (results[0] ?? "")`. -/
def shapeResult (opts : OCROptions) (texts : List String) : String ⊕ List String :=
  match opts with
  | .single _ => Sum.inl (texts.headD "")
  | .batch _ => Sum.inr texts

/-- The body of `recognizeOCR` after a worker is available: preprocess (which
may throw), then run the task loop; exceptions fall into the catch branch that
returns the bare empty shape. -/
def runWithWorker (env : OCREnv) (opts : OCROptions) (w : Worker) (evs1 : List Event) :
    OCROutcome :=
  if env.prepOk then
    match runTasks env 0 w (tasksOf opts) with
    | (Except.ok texts, w2, evs) =>
      ⟨shapeResult opts texts, some w2, true, false, evs1 ++ Event.prep :: evs⟩
    | (Except.error _, w2, evs) =>
      ⟨emptyShape opts, some w2, true, true, evs1 ++ Event.prep :: evs⟩
  else
    ⟨emptyShape opts, some w, true, true, evs1⟩

/-- `recognizeOCR` from `useTesseract`: null-image early exit, loading flag,
lazy worker creation (which may throw), preprocessing, sequential tasks,
shape-preserving result, catch-to-empty. -/
def recognizeOCR (worker0 : Option Worker) (env : OCREnv) (imageBlob : Option Blob)
    (opts : OCROptions) : OCROutcome :=
  match imageBlob with
  | none => ⟨emptyShape opts, worker0, false, false, []⟩
  | some _ =>
    match worker0 with
    | some w => runWithWorker env opts w []
    | none =>
      if env.createWorkerOk then
        runWithWorker env opts ⟨initLangsOf opts, []⟩ [Event.create (initLangsOf opts)]
      else
        ⟨emptyShape opts, none, true, true, []⟩

/-- The rectangle lies inside a `[0, w] × [0, h]` image. -/
def rectWithin (r : Rect) (w h : ℚ) : Prop :=
  0 ≤ r.left ∧ 0 ≤ r.top ∧ r.left + r.width ≤ w ∧ r.top + r.height ≤ h

/-- Working-image width of a captured blob after preprocessing. -/
def workingWidth (b : Blob) : ℚ := (b.w : ℚ) * (SCALE_FACTOR : ℚ)

/-- Working-image height of a captured blob after preprocessing. -/
def workingHeight (b : Blob) : ℚ := (b.h : ℚ) * (SCALE_FACTOR : ℚ)

/-- The line/character/column-oriented segmentation modes among those the
source enumerates: 5 (single vertical block), 7 (single line),
10 (single character).  Modes 3 (automatic) and 6 (single block) are not. -/
def isLineCharColMode (n : Nat) : Bool :=
  n = 5 || n = 7 || n = 10

/-- C10: a null image returns immediately with the bare empty value of the
matching shape, leaves the worker untouched, performs no external call
(no worker creation, no preprocessing) and never sets the loading flag. -/
theorem recognizeOCR_null_image (worker0 : Option Worker) (env : OCREnv)
    (opts : OCROptions) :
    (recognizeOCR worker0 env none opts).result =
      (match opts with
       | OCROptions.single _ => Sum.inl ""
       | OCROptions.batch _ => Sum.inr []) ∧
    (recognizeOCR worker0 env none opts).worker = worker0 ∧
    (recognizeOCR worker0 env none opts).loadingSet = false ∧
    (recognizeOCR worker0 env none opts).trace = [] := by
  cases opts <;> exact ⟨rfl, rfl, rfl, rfl⟩

/-- Helper: whenever the catch branch of the body is taken, the returned value
is the bare empty shape. -/
theorem runWithWorker_failure_empty (env : OCREnv) (opts : OCROptions) (w : Worker)
    (evs1 : List Event)
    (hfail : (runWithWorker env opts w evs1).failed = true) :
    (runWithWorker env opts w evs1).result = emptyShape opts := by
  unfold runWithWorker at hfail ⊢
  by_cases hp : env.prepOk
  · simp only [if_pos hp] at hfail ⊢
    rcases hrt : runTasks env 0 w (tasksOf opts) with ⟨r, w2, evs⟩
    cases r with
    | ok texts => rw [hrt] at hfail; simp at hfail
    | error e => rfl
  · simp only [if_neg hp] at hfail ⊢

/-- Helper: the catch branch of `recognizeOCR` returns the bare empty value
of the matching shape. -/
theorem recognizeOCR_catch_empty (worker0 : Option Worker) (env : OCREnv) (b : Blob)
    (opts : OCROptions)
    (hfail : (recognizeOCR worker0 env (some b) opts).failed = true) :
    (recognizeOCR worker0 env (some b) opts).result =
      (match opts with
       | OCROptions.single _ => Sum.inl ""
       | OCROptions.batch _ => Sum.inr []) := by
  have hres : (recognizeOCR worker0 env (some b) opts).result = emptyShape opts := by
    cases worker0 with
    | some w => exact runWithWorker_failure_empty env opts w [] hfail
    | none =>
      by_cases hc : env.createWorkerOk = true
      · simp only [recognizeOCR, if_pos hc] at hfail ⊢
        exact runWithWorker_failure_empty env opts _ _ hfail
      · simp only [recognizeOCR, if_neg hc]
  rw [hres]
  cases opts <;> rfl

/-- C1 (amended): any exception during worker creation, preprocessing or a
task's recognition is swallowed; the operation then returns the bare empty
string (single task) or bare empty list (batch), carrying no failure
information. -/
theorem recognizeOCR_failure_empty (worker0 : Option Worker) (env : OCREnv) (b : Blob)
    (opts : OCROptions)
    (hfail : (recognizeOCR worker0 env (some b) opts).failed = true) :
    (recognizeOCR worker0 env (some b) opts).result =
      (match opts with
       | OCROptions.single _ => Sum.inl ""
       | OCROptions.batch _ => Sum.inr []) :=
  recognizeOCR_catch_empty worker0 env b opts hfail

/-- Witness for `recognizeOCR_failure_empty`: a failing worker creation on a
single-task call. -/
theorem recognizeOCR_failure_empty_witness :
    (recognizeOCR none ⟨false, true, fun _ => none⟩ (some ⟨1, 1⟩)
        (OCROptions.single {})).failed = true ∧
    (recognizeOCR none ⟨false, true, fun _ => none⟩ (some ⟨1, 1⟩)
        (OCROptions.single {})).result = Sum.inl "" :=
  ⟨by decide,
    recognizeOCR_failure_empty none ⟨false, true, fun _ => none⟩ ⟨1, 1⟩
      (OCROptions.single {}) (by decide)⟩

/-- C1 counterexample: a run whose worker creation throws returns the same
bare value `""` as a successful run that recognized empty text — the failure
outcome is not typed or inspectable. -/
theorem recognizeOCR_failure_indistinguishable :
    (recognizeOCR none ⟨false, true, fun _ => none⟩ (some ⟨1, 1⟩)
        (OCROptions.single {})).failed = true ∧
    (recognizeOCR none ⟨false, true, fun _ => none⟩ (some ⟨1, 1⟩)
        (OCROptions.single {})).result = Sum.inl "" ∧
    (recognizeOCR none ⟨true, true, fun _ => some ""⟩ (some ⟨1, 1⟩)
        (OCROptions.single {})).failed = false ∧
    (recognizeOCR none ⟨true, true, fun _ => some ""⟩ (some ⟨1, 1⟩)
        (OCROptions.single {})).result = Sum.inl "" :=
  ⟨by decide, by decide, by decide, by decide⟩

/-- C3 counterexample: segmentation mode 3 is the automatic multi-block mode,
not a line/character/column-oriented one, yet the code strips every internal
whitespace from the raw text instead of merely trimming it. -/
theorem postprocess_psm3_cex :
    isLineCharColMode 3 = false ∧
    (recognizeOCR none ⟨true, true, fun _ => some "line one\nline two"⟩ (some ⟨4, 4⟩)
        (OCROptions.single { psm := some 3 })).result = Sum.inl "lineonelinetwo" ∧
    jsTrim "line one\nline two" = "line one\nline two" ∧
    ("lineonelinetwo" : String) ≠ "line one\nline two" :=
  ⟨by decide, by decide, by decide, by decide⟩

/-- C3 (amended): the post-processing of each task is keyed on whether the
task supplied a (truthy) segmentation mode at all: with any such mode all
whitespace is stripped, otherwise only leading/trailing whitespace is
trimmed. -/
theorem postprocess_by_psm (worker0 : Option Worker) (env : OCREnv) (b : Blob)
    (t : OCRTaskOptions) (raw : String)
    (hcw : env.createWorkerOk = true) (hprep : env.prepOk = true)
    (heng : env.engine 0 = some raw) :
    (recognizeOCR worker0 env (some b) (OCROptions.single t)).result =
      Sum.inl (if psmTruthy t.psm then stripAllWs raw else jsTrim raw) := by
  have hAux : ∀ (w : Worker) (evs1 : List Event),
      (runWithWorker env (OCROptions.single t) w evs1).result =
        Sum.inl (if psmTruthy t.psm then stripAllWs raw else jsTrim raw) := by
    intro w evs1
    by_cases hfp : taskFinalParams t = [] <;>
      simp [runWithWorker, hprep, tasksOf, runTasks, heng, hfp, postProcess, shapeResult]
  cases worker0 with
  | some w => exact hAux w []
  | none => simp only [recognizeOCR, if_pos hcw]; exact hAux _ _

/-- Witness for `postprocess_by_psm`: a task with segmentation mode 7 maps
raw text with embedded whitespace to its whitespace-free form. -/
theorem postprocess_by_psm_witness :
    (⟨true, true, fun _ => some " 1 2 \n"⟩ : OCREnv).createWorkerOk = true ∧
    (⟨true, true, fun _ => some " 1 2 \n"⟩ : OCREnv).engine 0 = some " 1 2 \n" ∧
    (recognizeOCR none ⟨true, true, fun _ => some " 1 2 \n"⟩ (some ⟨1, 1⟩)
        (OCROptions.single { psm := some 7 })).result =
      Sum.inl (if psmTruthy (some 7) then stripAllWs " 1 2 \n" else jsTrim " 1 2 \n") :=
  ⟨rfl, rfl,
    postprocess_by_psm none ⟨true, true, fun _ => some " 1 2 \n"⟩ ⟨1, 1⟩
      { psm := some 7 } " 1 2 \n" rfl rfl rfl⟩

/-- C4 counterexample: a batch of one task whose engine call throws returns
the empty list — not a list of exactly one post-processed result. -/
theorem recognize_batch_shape_cex :
    (recognizeOCR none ⟨true, true, fun _ => none⟩ (some ⟨1, 1⟩)
        (OCROptions.batch [{}])).result = Sum.inr [] ∧
    ([] : List String).length ≠ [({} : OCRTaskOptions)].length :=
  ⟨by decide, by decide⟩

/-- Helper: every `recognize` event of the task loop carries exactly the
task's rectangle multiplied by `SCALE_FACTOR` — no clamping intervenes. -/
theorem runTasks_recognize_rect (env : OCREnv) :
    ∀ (ts : List OCRTaskOptions) (k : Nat) (w : Worker) (r : Option Rect)
      (ps : List (String × ParamVal)),
      Event.recognize r ps ∈ (runTasks env k w ts).2.2 →
      ∃ t ∈ ts, r = t.rectangle.map scaleRect := by
  intro ts
  induction ts with
  | nil => intro k w r ps h; simp [runTasks] at h
  | cons t rest ih =>
    intro k w r ps h
    simp only [runTasks] at h
    rcases heng : env.engine k with _ | raw <;> rw [heng] at h
    · simp only [List.mem_append] at h
      rcases h with h | h
      · by_cases hfp : taskFinalParams t = [] <;> simp [hfp] at h
      · simp only [List.mem_singleton] at h
        obtain ⟨hr, _⟩ := Event.recognize.inj h
        exact ⟨t, List.mem_cons_self t rest, hr⟩
    · rcases hrt : runTasks env (k + 1)
          (if taskFinalParams t = [] then w
           else { w with params := applyParams w.params (taskFinalParams t) }) rest
        with ⟨r2, w2, evs⟩
      rw [hrt] at h
      cases r2 <;>
      · simp only [List.mem_append, List.mem_cons] at h
        rcases h with h | h | h
        · by_cases hfp : taskFinalParams t = [] <;> simp [hfp] at h
        · obtain ⟨hr, _⟩ := Event.recognize.inj h
          exact ⟨t, List.mem_cons_self t rest, hr⟩
        · obtain ⟨t2, ht2, hr⟩ := ih (k + 1) _ r ps (by rw [hrt]; exact h)
          exact ⟨t2, List.mem_cons_of_mem t ht2, hr⟩

/-- Helper: lifting `runTasks_recognize_rect` through the body wrapper. -/
theorem runWithWorker_recognize_rect (env : OCREnv) (opts : OCROptions) (w : Worker)
    (evs1 : List Event) (r : Option Rect) (ps : List (String × ParamVal))
    (hevs1 : ∀ r2 ps2, Event.recognize r2 ps2 ∉ evs1)
    (hmem : Event.recognize r ps ∈ (runWithWorker env opts w evs1).trace) :
    ∃ t ∈ tasksOf opts, r = t.rectangle.map scaleRect := by
  unfold runWithWorker at hmem
  by_cases hp : env.prepOk
  · simp only [if_pos hp] at hmem
    rcases hrt : runTasks env 0 w (tasksOf opts) with ⟨r2, w2, evs⟩
    rw [hrt] at hmem
    cases r2 <;>
    · simp only [List.mem_append, List.mem_cons] at hmem
      rcases hmem with h | h | h
      · exact absurd h (hevs1 r ps)
      · exact absurd h (by simp)
      · exact runTasks_recognize_rect env (tasksOf opts) 0 w r ps (by rw [hrt]; exact h)
  · simp only [if_neg hp] at hmem
    exact absurd hmem (hevs1 r ps)

/-- C2 (amended): the rectangle handed to the engine for a task is exactly
the task's rectangle with all four fields multiplied by `SCALE_FACTOR`;
no clamping to the working-image bounds is performed and no `InvalidRegion`
outcome exists for degenerate or out-of-bounds rectangles. -/
theorem recognize_rect_unclamped (worker0 : Option Worker) (env : OCREnv) (b : Blob)
    (opts : OCROptions) (r : Option Rect) (ps : List (String × ParamVal))
    (hmem : Event.recognize r ps ∈ (recognizeOCR worker0 env (some b) opts).trace) :
    ∃ t ∈ tasksOf opts, r = t.rectangle.map scaleRect := by
  cases worker0 with
  | some w =>
    exact runWithWorker_recognize_rect env opts w [] r ps (by simp) hmem
  | none =>
    by_cases hc : env.createWorkerOk = true
    · simp only [recognizeOCR, if_pos hc] at hmem
      exact runWithWorker_recognize_rect env opts _ _ r ps (by simp) hmem
    · simp only [recognizeOCR, if_neg hc] at hmem
      simp at hmem

/-- Witness for `recognize_rect_unclamped` at a concrete single-task run with
a rectangle. -/
theorem recognize_rect_unclamped_witness :
    Event.recognize (some (scaleRect ⟨1, 2, 3, 4⟩)) [] ∈
      (recognizeOCR none ⟨true, true, fun _ => some "x"⟩ (some ⟨10, 10⟩)
        (OCROptions.single { rectangle := some ⟨1, 2, 3, 4⟩ })).trace ∧
    ∃ t ∈ tasksOf (OCROptions.single { rectangle := some (⟨1, 2, 3, 4⟩ : Rect) }),
      some (scaleRect ⟨1, 2, 3, 4⟩) = t.rectangle.map scaleRect :=
  ⟨by simp [recognizeOCR, runWithWorker, runTasks, tasksOf, taskFinalParams, initLangsOf],
    recognize_rect_unclamped none ⟨true, true, fun _ => some "x"⟩ ⟨10, 10⟩
      (OCROptions.single { rectangle := some ⟨1, 2, 3, 4⟩ })
      (some (scaleRect ⟨1, 2, 3, 4⟩)) []
      (by simp [recognizeOCR, runWithWorker, runTasks, tasksOf, taskFinalParams, initLangsOf])⟩

/-- C2 counterexample: a task rectangle that maps far outside the 20×20
working image is passed to the engine as-is — unclamped and out of bounds —
and the run still completes without any `InvalidRegion` failure. -/
theorem recognize_rect_not_clamped_cex :
    Event.recognize (some (scaleRect ⟨0, 0, 100, 100⟩)) [] ∈
      (recognizeOCR none ⟨true, true, fun _ => some "x"⟩ (some ⟨10, 10⟩)
        (OCROptions.single { rectangle := some ⟨0, 0, 100, 100⟩ })).trace ∧
    ¬ rectWithin (scaleRect ⟨0, 0, 100, 100⟩) (workingWidth ⟨10, 10⟩)
        (workingHeight ⟨10, 10⟩) ∧
    (recognizeOCR none ⟨true, true, fun _ => some "x"⟩ (some ⟨10, 10⟩)
        (OCROptions.single { rectangle := some ⟨0, 0, 100, 100⟩ })).failed = false := by
  refine ⟨?_, ?_, ?_⟩
  · simp [recognizeOCR, runWithWorker, runTasks, tasksOf, taskFinalParams, initLangsOf]
  · intro hin
    obtain ⟨_, _, hw, _⟩ := hin
    rw [scaleRect, workingWidth] at hw
    norm_num [SCALE_FACTOR] at hw
  · decide

/-- Helper: a successful task loop yields one post-processed engine text per
task, in input order. -/
theorem runTasks_ok_spec (env : OCREnv) :
    ∀ (ts : List OCRTaskOptions) (k : Nat) (w : Worker) (l : List String)
      (w2 : Worker) (evs : List Event),
      runTasks env k w ts = (Except.ok l, w2, evs) →
      l.length = ts.length ∧
      ∀ i (hi : i < ts.length) (hl : i < l.length),
        ∃ raw, env.engine (k + i) = some raw ∧
          l.get ⟨i, hl⟩ = postProcess (ts.get ⟨i, hi⟩) raw := by
  intro ts
  induction ts with
  | nil =>
    intro k w l w2 evs h
    simp only [runTasks, Prod.mk.injEq] at h
    obtain ⟨h1, _, _⟩ := h
    cases h1
    exact ⟨rfl, fun i hi => absurd hi (Nat.not_lt_zero i)⟩
  | cons t rest ih =>
    intro k w l w2 evs h
    simp only [runTasks] at h
    rcases heng : env.engine k with _ | raw <;> rw [heng] at h
    · simp at h
    · rcases hrt : runTasks env (k + 1)
          (if taskFinalParams t = [] then w
           else { w with params := applyParams w.params (taskFinalParams t) }) rest
        with ⟨r2, w3, evs3⟩
      rw [hrt] at h
      cases r2 with
      | error e => simp at h
      | ok l2 =>
        simp only [Prod.mk.injEq] at h
        obtain ⟨h1, _, _⟩ := h
        obtain ⟨hlen2, hspec2⟩ := ih (k + 1) _ l2 w3 evs3 hrt
        cases h1
        refine ⟨by simp [hlen2], ?_⟩
        intro i hi hl
        cases i with
        | zero => exact ⟨raw, by simpa using heng, rfl⟩
        | succ j =>
          have hj : j < rest.length := Nat.lt_of_succ_lt_succ hi
          have hjl : j < l2.length := Nat.lt_of_succ_lt_succ hl
          obtain ⟨raw2, heng2, hval⟩ := hspec2 j hj hjl
          refine ⟨raw2, ?_, ?_⟩
          · have : k + 1 + j = k + (j + 1) := by omega
            rw [← this]; exact heng2
          · simpa using hval

/-- Helper: a non-failed body run means the task loop succeeded, and the
result is the head (single) or whole list (batch) of its texts. -/
theorem runWithWorker_ok (env : OCREnv) (opts : OCROptions) (w : Worker)
    (evs1 : List Event)
    (hok : (runWithWorker env opts w evs1).failed = false) :
    ∃ texts w2 evs, runTasks env 0 w (tasksOf opts) = (Except.ok texts, w2, evs) ∧
      (runWithWorker env opts w evs1).result = shapeResult opts texts := by
  unfold runWithWorker at hok ⊢
  by_cases hp : env.prepOk
  · simp only [if_pos hp] at hok ⊢
    rcases hrt : runTasks env 0 w (tasksOf opts) with ⟨r, w2, evs⟩
    rw [hrt] at hok
    cases r with
    | ok texts => exact ⟨texts, w2, evs, rfl, rfl⟩
    | error e => simp at hok
  · simp only [if_neg hp] at hok
    simp at hok

/-- C4 (amended): whenever no exception occurs, a single-task call returns
one string — the post-processed engine text — and a batch call returns
exactly one post-processed string per task, in input order; in all cases
(exceptions included) the single-vs-array shape of the `options` argument
alone determines the string-vs-list shape of the result. -/
theorem recognize_shape (worker0 : Option Worker) (env : OCREnv) (b : Blob) :
    (∀ t : OCRTaskOptions,
      (recognizeOCR worker0 env (some b) (OCROptions.single t)).failed = false →
      ∃ raw, env.engine 0 = some raw ∧
        (recognizeOCR worker0 env (some b) (OCROptions.single t)).result =
          Sum.inl (postProcess t raw)) ∧
    (∀ ts : List OCRTaskOptions,
      (recognizeOCR worker0 env (some b) (OCROptions.batch ts)).failed = false →
      ∃ l : List String,
        (recognizeOCR worker0 env (some b) (OCROptions.batch ts)).result = Sum.inr l ∧
        l.length = ts.length ∧
        ∀ i (hi : i < ts.length) (hl : i < l.length),
          ∃ raw, env.engine i = some raw ∧
            l.get ⟨i, hl⟩ = postProcess (ts.get ⟨i, hi⟩) raw) ∧
    (∀ opts : OCROptions,
      (∃ t, opts = OCROptions.single t) →
        ∃ s, (recognizeOCR worker0 env (some b) opts).result = Sum.inl s) ∧
    (∀ opts : OCROptions,
      (∃ ts, opts = OCROptions.batch ts) →
        ∃ l, (recognizeOCR worker0 env (some b) opts).result = Sum.inr l) := by
  have hbody0 : ∀ (opts : OCROptions),
      (recognizeOCR worker0 env (some b) opts).failed = false →
      ∃ texts w2 evs, runTasks env 0 (worker0.getD ⟨initLangsOf opts, []⟩)
          (tasksOf opts) = (Except.ok texts, w2, evs) ∧
        (recognizeOCR worker0 env (some b) opts).result = shapeResult opts texts := by
    intro opts hok
    cases worker0 with
    | some w0 => exact runWithWorker_ok env opts w0 [] hok
    | none =>
      by_cases hc : env.createWorkerOk = true
      · simp only [recognizeOCR, if_pos hc] at hok ⊢
        exact runWithWorker_ok env opts _ _ hok
      · simp only [recognizeOCR, if_neg hc] at hok
        simp at hok
  have hshape : ∀ (opts : OCROptions),
      ∃ texts : List String,
        (recognizeOCR worker0 env (some b) opts).result = shapeResult opts texts := by
    intro opts
    rcases hfb : (recognizeOCR worker0 env (some b) opts).failed with _ | _
    · obtain ⟨texts, _, _, _, hres⟩ := hbody0 opts hfb
      exact ⟨texts, hres⟩
    · have hres := recognizeOCR_catch_empty worker0 env b opts hfb
      refine ⟨[], ?_⟩
      rw [hres]
      cases opts <;> rfl
  refine ⟨?_, ?_, ?_, ?_⟩
  · intro t hok
    obtain ⟨texts, w2, evs, hrt, hres⟩ := hbody0 (OCROptions.single t) hok
    obtain ⟨hlen, hspec⟩ := runTasks_ok_spec env (tasksOf (OCROptions.single t)) 0 _
      texts w2 evs hrt
    simp only [tasksOf, List.length_singleton] at hlen
    obtain ⟨raw, heng, hval⟩ := hspec 0 (by simp [tasksOf]) (by omega)
    refine ⟨raw, by simpa using heng, ?_⟩
    rw [hres]
    simp only [shapeResult]
    have h0 : texts.headD "" = texts.get ⟨0, by omega⟩ := by
      cases texts with
      | nil => simp at hlen
      | cons a l => rfl
    rw [h0, hval]
    rfl
  · intro ts hok
    obtain ⟨texts, w2, evs, hrt, hres⟩ := hbody0 (OCROptions.batch ts) hok
    obtain ⟨hlen, hspec⟩ := runTasks_ok_spec env (tasksOf (OCROptions.batch ts)) 0 _
      texts w2 evs hrt
    refine ⟨texts, hres, by simpa [tasksOf] using hlen, ?_⟩
    intro i hi hl
    obtain ⟨raw, heng, hval⟩ := hspec i (by simpa [tasksOf] using hi) hl
    exact ⟨raw, by simpa using heng, by simpa [tasksOf] using hval⟩
  · rintro opts ⟨t, rfl⟩
    obtain ⟨texts, hres⟩ := hshape (OCROptions.single t)
    exact ⟨texts.headD "", hres⟩
  · rintro opts ⟨ts, rfl⟩
    obtain ⟨texts, hres⟩ := hshape (OCROptions.batch ts)
    exact ⟨texts, hres⟩

/-- Witness for `recognize_shape`: a concrete two-task batch whose engine
returns raw texts with surrounding whitespace. -/
theorem recognize_shape_witness :
    (recognizeOCR none ⟨true, true, fun _ => some " a b "⟩ (some ⟨1, 1⟩)
        (OCROptions.batch [{}, { psm := some 7 }])).failed = false ∧
    ∃ l : List String,
      (recognizeOCR none ⟨true, true, fun _ => some " a b "⟩ (some ⟨1, 1⟩)
          (OCROptions.batch [{}, { psm := some 7 }])).result = Sum.inr l ∧
      l.length = [({} : OCRTaskOptions), { psm := some 7 }].length ∧
      ∀ i (hi : i < [({} : OCRTaskOptions), { psm := some 7 }].length) (hl : i < l.length),
        ∃ raw, (fun _ : Nat => some " a b ") i = some raw ∧
          l.get ⟨i, hl⟩ = postProcess ([({} : OCRTaskOptions), { psm := some 7 }].get ⟨i, hi⟩) raw :=
  ⟨by decide,
    (recognize_shape none ⟨true, true, fun _ => some " a b "⟩ ⟨1, 1⟩).2.1
      [{}, { psm := some 7 }] (by decide)⟩

/-- Helper: the task loop is compositional — after a successful prefix the
remaining tasks run from the worker state the prefix left behind. -/
theorem runTasks_append (env : OCREnv) :
    ∀ (ts1 : List OCRTaskOptions) (k : Nat) (w : Worker) (l : List String)
      (w1 : Worker) (ev1 : List Event),
      runTasks env k w ts1 = (Except.ok l, w1, ev1) →
      ∀ ts2, runTasks env k w (ts1 ++ ts2) =
        ((runTasks env (k + ts1.length) w1 ts2).1.map fun l2 => l ++ l2,
         (runTasks env (k + ts1.length) w1 ts2).2.1,
         ev1 ++ (runTasks env (k + ts1.length) w1 ts2).2.2) := by
  intro ts1
  induction ts1 with
  | nil =>
    intro k w l w1 ev1 h ts2
    simp only [runTasks, Prod.mk.injEq] at h
    obtain ⟨h1, h2, h3⟩ := h
    cases h1; cases h2; cases h3
    simp only [List.nil_append, List.length_nil, Nat.add_zero]
    rcases hrt : runTasks env k w ts2 with ⟨r2, w2, ev2⟩
    cases r2 <;> simp [Except.map]
  | cons t rest ih =>
    intro k w l w1 ev1 h ts2
    simp only [runTasks] at h ⊢
    rcases heng : env.engine k with _ | raw <;> rw [heng] at h
    · simp at h
    · rcases hrt : runTasks env (k + 1)
          (if taskFinalParams t = [] then w
           else { w with params := applyParams w.params (taskFinalParams t) }) rest
        with ⟨r2, w3, evs3⟩
      rw [hrt] at h
      cases r2 with
      | error e => simp at h
      | ok l2 =>
        simp only [Prod.mk.injEq] at h
        obtain ⟨h1, h2, h3⟩ := h
        cases h1; cases h2; cases h3
        have hrec := ih (k + 1) _ l2 w1 evs3 hrt ts2
        simp only [List.append_eq] at hrec ⊢
        rw [hrec]
        have harith : k + 1 + rest.length = k + (rest.length + 1) := by omega
        rw [harith]
        rcases hrt2 : runTasks env (k + (rest.length + 1)) w1 ts2 with ⟨r4, w4, ev4⟩
        cases r4 <;> simp [hrt2, Except.map, List.length_cons]

/-- C9: a task with no parameter overrides and no segmentation mode triggers
no `setParameters` call — its recognition event follows the prefix trace
directly and records exactly the parameters the previous tasks left on the
session (`w1.params`), and the remaining tasks continue from that same
unchanged worker state. -/
theorem sticky_parameters (env : OCREnv) (k : Nat) (w : Worker)
    (ts1 ts2 : List OCRTaskOptions) (t : OCRTaskOptions)
    (hp : t.parameters = []) (hpsm : psmTruthy t.psm = false)
    (l : List String) (w1 : Worker) (ev1 : List Event)
    (h1 : runTasks env k w ts1 = (Except.ok l, w1, ev1))
    (raw : String) (heng : env.engine (k + ts1.length) = some raw) :
    runTasks env k w (ts1 ++ t :: ts2) =
      ((runTasks env (k + ts1.length + 1) w1 ts2).1.map
          (fun l2 => l ++ postProcess t raw :: l2),
       (runTasks env (k + ts1.length + 1) w1 ts2).2.1,
       ev1 ++ Event.recognize (t.rectangle.map scaleRect) w1.params ::
         (runTasks env (k + ts1.length + 1) w1 ts2).2.2) := by
  have hfp : taskFinalParams t = [] := by
    unfold taskFinalParams
    cases hps : t.psm with
    | none => exact hp
    | some n =>
      rw [hps] at hpsm
      simp only [psmTruthy] at hpsm
      simp [hpsm, hp]
  rw [runTasks_append env ts1 k w l w1 ev1 h1 (t :: ts2)]
  simp only [runTasks, heng, hfp, if_pos rfl]
  rcases hrt2 : runTasks env (k + ts1.length + 1) w1 ts2 with ⟨r2, w2, ev2⟩
  cases r2 <;> simp [hrt2, Except.map]

/-- Concrete environment for the sticky-parameter witness: every engine call
returns the raw text "x". -/
def stickyEnv : OCREnv := ⟨true, true, fun _ => some "x"⟩

/-- Concrete first task setting a character whitelist parameter. -/
def wlTask : OCRTaskOptions :=
  { parameters := [("tessedit_char_whitelist", ParamVal.str "0123456789.")] }

/-- Worker state after the whitelist task ran. -/
def wlWorker : Worker :=
  ⟨defaultLangs, [("tessedit_char_whitelist", ParamVal.str "0123456789.")]⟩

/-- Event trace of the whitelist task alone. -/
def wlEvents : List Event :=
  [Event.setParams [("tessedit_char_whitelist", ParamVal.str "0123456789.")],
   Event.recognize none [("tessedit_char_whitelist", ParamVal.str "0123456789.")]]

/-- Witness for `sticky_parameters`: task 1 sets a character whitelist, task 2
supplies nothing and its recognition runs under that same whitelist. -/
theorem sticky_parameters_witness :
    ({} : OCRTaskOptions).parameters = [] ∧
    psmTruthy ({} : OCRTaskOptions).psm = false ∧
    runTasks stickyEnv 0 ⟨defaultLangs, []⟩ [wlTask] =
      (Except.ok ["x"], wlWorker, wlEvents) ∧
    stickyEnv.engine (0 + [wlTask].length) = some "x" ∧
    runTasks stickyEnv 0 ⟨defaultLangs, []⟩ ([wlTask] ++ ({} : OCRTaskOptions) :: []) =
      ((runTasks stickyEnv (0 + [wlTask].length + 1) wlWorker []).1.map
          (fun l2 => ["x"] ++ postProcess {} "x" :: l2),
       (runTasks stickyEnv (0 + [wlTask].length + 1) wlWorker []).2.1,
       wlEvents ++ Event.recognize (({} : OCRTaskOptions).rectangle.map scaleRect)
           wlWorker.params ::
         (runTasks stickyEnv (0 + [wlTask].length + 1) wlWorker []).2.2) :=
  ⟨rfl, rfl, rfl, rfl,
    sticky_parameters stickyEnv 0 ⟨defaultLangs, []⟩ [wlTask] [] {} rfl rfl
      ["x"] wlWorker wlEvents rfl "x" rfl⟩

end DishDecoder
